import Mathlib

/-!
# Verification of the Item Store Service (`src/main.py`)

A shallow embedding of the FastAPI in-memory item store. The Python dict
`items_db` is modelled as an insertion-ordered association list with the
exact semantics of Python dict assignment (replace in place if the key is
present, append otherwise), lookup and `pop`. The pydantic models `Item`
and `ItemUpdate` are modelled as structures; optional presence of a field
in a JSON body is an outer `Option`, and an explicit JSON `null` value for
a set field of `ItemUpdate` is an inner `none` (pydantic's
`dict(exclude_unset=True)` keeps explicitly-null fields). Floats carry
exact decimal literals only (no arithmetic is performed on them), so they
are modelled as rationals.
-/

namespace FastApiDemo

/-- A record stored in `items_db`: the plain dict built by `create_item`
(`{"id": ..., **item.dict()}`). Non-`id` values are `Option`s because an
update whose body explicitly sets a field to `null` writes `None` into the
stored dict. -/
structure StoredItem where
  id : Nat
  name : Option String
  description : Option String
  price : Option ℚ
  quantity : Option Int
deriving Repr, DecidableEq

/-- The pydantic `Item` model after successful validation:
`name: str`, `description: Optional[str] = None`, `price: float`,
`quantity: int = 0`. -/
structure Item where
  name : String
  description : Option String
  price : ℚ
  quantity : Int
deriving Repr, DecidableEq

/-- Raw fields of a POST `/items` body before pydantic validation.
`none` means the field is absent (for `name` and `price`, an explicit
JSON `null` fails validation exactly like absence, so it is identified
with absence here). -/
structure CreateInput where
  name : Option String
  description : Option String
  price : Option ℚ
  quantity : Option Int
deriving Repr, DecidableEq

/-- pydantic validation of the `Item` model: `name` and `price` are
required; `description` defaults to `None` and `quantity` defaults to `0`
when omitted. pydantic's `str` type accepts any string, the empty string
included. -/
def validateItem (input : CreateInput) : Option Item :=
  match input.name, input.price with
  | some n, some p => some ⟨n, input.description, p, input.quantity.getD 0⟩
  | _, _ => none

/-- The pydantic `ItemUpdate` model together with its `__fields_set__`
information: the outer `Option` is `some` exactly for the fields present
in the request body (what `dict(exclude_unset=True)` keeps), and the
inner `Option` is the field's value, `none` for an explicit JSON `null`. -/
structure ItemUpdate where
  name : Option (Option String)
  description : Option (Option String)
  price : Option (Option ℚ)
  quantity : Option (Option Int)
deriving Repr, DecidableEq

/-- The `ItemUpdate` corresponding to an empty request body `{}`. -/
def emptyUpdate : ItemUpdate := ⟨none, none, none, none⟩

/-- The update loop of `update_item`:
`for key, value in update_data.items(): stored_item[key] = value`,
where `update_data = item_update.dict(exclude_unset=True)`. Each field
present in the body overwrites the stored value; absent fields are left
unchanged; the `id` key is never touched (`ItemUpdate` has no `id`). -/
def applyUpdate (u : ItemUpdate) (r : StoredItem) : StoredItem :=
  { id := r.id
    name := u.name.getD r.name
    description := u.description.getD r.description
    price := u.price.getD r.price
    quantity := u.quantity.getD r.quantity }

/-- Python dict membership test / subscript read (`item_id in items_db`,
`items_db[item_id]`). -/
def dictLookup : List (Nat × StoredItem) → Nat → Option StoredItem
  | [], _ => none
  | p :: rest, k => if p.1 = k then some p.2 else dictLookup rest k

/-- Python dict assignment `items_db[k] = v`: replaces the value in place
when the key is present (order preserved), appends otherwise. -/
def dictInsert : List (Nat × StoredItem) → Nat → StoredItem → List (Nat × StoredItem)
  | [], k, v => [(k, v)]
  | p :: rest, k, v => if p.1 = k then (k, v) :: rest else p :: dictInsert rest k v

/-- Python `items_db.pop(k)`'s effect on the dict: removes the entry for
`k`, preserving the order of the others. -/
def dictRemove : List (Nat × StoredItem) → Nat → List (Nat × StoredItem)
  | [], _ => []
  | p :: rest, k => if p.1 = k then dictRemove rest k else p :: dictRemove rest k

/-- The module-level state of `main.py`: `items_db` and
`item_id_counter`. -/
structure Store where
  items_db : List (Nat × StoredItem)
  item_id_counter : Nat
deriving Repr, DecidableEq

/-- The state at process start: `items_db = {}`, `item_id_counter = 1`. -/
def initialStore : Store := ⟨[], 1⟩

/-- The two error responses the handlers can produce. -/
inductive ApiError where
  | notFound
  | validationError
deriving Repr, DecidableEq

/-- GET `/items`: `{"items": list(items_db.values()), "count": len(items_db)}`. -/
def get_all_items (s : Store) : List StoredItem × Nat :=
  (s.items_db.map Prod.snd, s.items_db.length)

/-- GET `/items/{item_id}`: 404 when the id is absent, otherwise the
stored record. -/
def get_item (s : Store) (item_id : Nat) : Except ApiError StoredItem :=
  match dictLookup s.items_db item_id with
  | none => .error .notFound
  | some r => .ok r

/-- The body of `create_item` after pydantic validation succeeded:
builds `{"id": item_id_counter, **item.dict()}`, stores it under
`item_id_counter`, increments the counter, returns the new record. -/
def create_item (s : Store) (item : Item) : Store × StoredItem :=
  let new_item : StoredItem :=
    { id := s.item_id_counter
      name := some item.name
      description := item.description
      price := some item.price
      quantity := some item.quantity }
  (⟨dictInsert s.items_db s.item_id_counter new_item, s.item_id_counter + 1⟩, new_item)

/-- POST `/items`: pydantic validation of the body, then `create_item`.
A validation failure is a 422 response and leaves the store unchanged. -/
def create_route (s : Store) (input : CreateInput) : Store × Except ApiError StoredItem :=
  match validateItem input with
  | none => (s, .error .validationError)
  | some item =>
      let out := create_item s item
      (out.1, .ok out.2)

/-- PUT `/items/{item_id}`: 404 when the id is absent; otherwise applies
the fields present in the body to the stored record and returns it. -/
def update_item (s : Store) (item_id : Nat) (u : ItemUpdate) :
    Store × Except ApiError StoredItem :=
  match dictLookup s.items_db item_id with
  | none => (s, .error .notFound)
  | some stored =>
      let updated := applyUpdate u stored
      (⟨dictInsert s.items_db item_id updated, s.item_id_counter⟩, .ok updated)

/-- DELETE `/items/{item_id}`: 404 when the id is absent; otherwise pops
the record and returns it. -/
def delete_item (s : Store) (item_id : Nat) : Store × Except ApiError StoredItem :=
  match dictLookup s.items_db item_id with
  | none => (s, .error .notFound)
  | some r => (⟨dictRemove s.items_db item_id, s.item_id_counter⟩, .ok r)

/-- One client request against the store (GET `/` is stateless and
constant, so it is omitted; GET `/items` never changes the store). -/
inductive Op where
  | create (input : CreateInput)
  | get (item_id : Nat)
  | update (item_id : Nat) (u : ItemUpdate)
  | delete (item_id : Nat)
deriving Repr, DecidableEq

/-- The store after handling one request. -/
def stepOp (s : Store) : Op → Store
  | .create input => (create_route s input).1
  | .get _ => s
  | .update i u => (update_item s i u).1
  | .delete i => (delete_item s i).1

/-- The store after handling a sequence of requests. -/
def runOps (s : Store) : List Op → Store
  | [] => s
  | op :: ops => runOps (stepOp s op) ops

/-- The ids assigned by the successful creates of a trace, in order. -/
def assignedIds (s : Store) : List Op → List Nat
  | [] => []
  | .create input :: ops =>
      if (validateItem input).isSome then
        s.item_id_counter :: assignedIds (stepOp s (.create input)) ops
      else
        assignedIds (stepOp s (.create input)) ops
  | op :: ops => assignedIds (stepOp s op) ops

/-- The number of successful creates in a trace. -/
def succCreates (s : Store) : List Op → Nat
  | [] => 0
  | .create input :: ops =>
      (if (validateItem input).isSome then 1 else 0) +
        succCreates (stepOp s (.create input)) ops
  | op :: ops => succCreates (stepOp s op) ops

/-- The number of successful deletes in a trace. -/
def succDeletes (s : Store) : List Op → Nat
  | [] => 0
  | .delete i :: ops =>
      (if (dictLookup s.items_db i).isSome then 1 else 0) +
        succDeletes (stepOp s (.delete i)) ops
  | op :: ops => succDeletes (stepOp s op) ops

/-- Every key of the dict is below the counter (so ids are never
reused). -/
def counterDominates (s : Store) : Prop :=
  ∀ k ∈ s.items_db.map Prod.fst, k < s.item_id_counter

/-- The well-formedness the Python dict guarantees by construction:
unique keys, and every key below the counter. -/
def Inv (s : Store) : Prop :=
  (s.items_db.map Prod.fst).Nodup ∧ counterDominates s

/-! ### Lemmas about the dict operations -/

theorem dictLookup_dictInsert_self (db : List (Nat × StoredItem)) (k : Nat) (v : StoredItem) :
    dictLookup (dictInsert db k v) k = some v := by
  induction db with
  | nil => simp [dictInsert, dictLookup]
  | cons p rest ih =>
      by_cases h : p.1 = k
      · simp [dictInsert, h, dictLookup]
      · simp [dictInsert, h, dictLookup, ih]

theorem dictLookup_dictInsert_ne (db : List (Nat × StoredItem)) (k j : Nat) (v : StoredItem)
    (h : j ≠ k) : dictLookup (dictInsert db k v) j = dictLookup db j := by
  induction db with
  | nil => simp [dictInsert, dictLookup, Ne.symm h]
  | cons p rest ih =>
      by_cases hp : p.1 = k
      · simp [dictInsert, dictLookup, hp, Ne.symm h]
      · simp [dictInsert, dictLookup, hp, ih]

theorem dictInsert_dictInsert_same (db : List (Nat × StoredItem)) (k : Nat) (v w : StoredItem) :
    dictInsert (dictInsert db k v) k w = dictInsert db k w := by
  induction db with
  | nil => simp [dictInsert]
  | cons p rest ih =>
      by_cases hp : p.1 = k
      · simp [dictInsert, hp]
      · simp [dictInsert, hp, ih]

theorem dictRemove_sublist (db : List (Nat × StoredItem)) (k : Nat) :
    List.Sublist (dictRemove db k) db := by
  induction db with
  | nil => simp [dictRemove]
  | cons p rest ih =>
      by_cases hp : p.1 = k
      · simpa [dictRemove, hp] using List.Sublist.cons _ ih
      · simpa [dictRemove, hp] using List.Sublist.cons₂ p ih

theorem dictLookup_dictRemove_self (db : List (Nat × StoredItem)) (k : Nat) :
    dictLookup (dictRemove db k) k = none := by
  induction db with
  | nil => simp [dictRemove, dictLookup]
  | cons p rest ih =>
      by_cases hp : p.1 = k
      · simp [dictRemove, hp, ih]
      · simp [dictRemove, dictLookup, hp, ih]

theorem dictLookup_dictRemove_ne (db : List (Nat × StoredItem)) (k j : Nat)
    (h : j ≠ k) : dictLookup (dictRemove db k) j = dictLookup db j := by
  induction db with
  | nil => simp [dictRemove]
  | cons p rest ih =>
      by_cases hp : p.1 = k
      · simp [dictRemove, dictLookup, hp, Ne.symm h, ih]
      · simp [dictRemove, dictLookup, hp, ih]

theorem dictLookup_eq_none_iff (db : List (Nat × StoredItem)) (k : Nat) :
    dictLookup db k = none ↔ k ∉ db.map Prod.fst := by
  induction db with
  | nil => simp [dictLookup]
  | cons p rest ih =>
      by_cases hp : p.1 = k
      · simp [dictLookup, hp]
      · simp [dictLookup, hp, Ne.symm hp, ih]

theorem mem_keys_of_dictLookup_isSome {db : List (Nat × StoredItem)} {k : Nat}
    (h : (dictLookup db k).isSome) : k ∈ db.map Prod.fst := by
  by_contra hk
  rw [(dictLookup_eq_none_iff db k).mpr hk] at h
  simp at h

theorem mem_keys_dictInsert {db : List (Nat × StoredItem)} {k k' : Nat} {v : StoredItem}
    (h : k' ∈ (dictInsert db k v).map Prod.fst) : k' ∈ db.map Prod.fst ∨ k' = k := by
  induction db with
  | nil =>
      simp [dictInsert] at h
      exact Or.inr h
  | cons p rest ih =>
      by_cases hp : p.1 = k
      · rw [show dictInsert (p :: rest) k v = (k, v) :: rest from by simp [dictInsert, hp]] at h
        rw [List.map_cons, List.mem_cons] at h
        rcases h with h | h
        · exact Or.inr h
        · exact Or.inl (by rw [List.map_cons, List.mem_cons]; exact Or.inr h)
      · rw [show dictInsert (p :: rest) k v = p :: dictInsert rest k v from by
            simp [dictInsert, hp]] at h
        rw [List.map_cons, List.mem_cons] at h
        rcases h with h | h
        · exact Or.inl (by rw [List.map_cons, List.mem_cons]; exact Or.inl h)
        · rcases ih h with h2 | h2
          · exact Or.inl (by rw [List.map_cons, List.mem_cons]; exact Or.inr h2)
          · exact Or.inr h2

theorem dictRemove_of_absent {db : List (Nat × StoredItem)} {k : Nat}
    (h : dictLookup db k = none) : dictRemove db k = db := by
  induction db with
  | nil => simp [dictRemove]
  | cons p rest ih =>
      by_cases hp : p.1 = k
      · simp [dictLookup, hp] at h
      · simp [dictLookup, hp] at h
        simp [dictRemove, hp, ih h]

theorem length_dictInsert_of_absent {db : List (Nat × StoredItem)} {k : Nat} {v : StoredItem}
    (h : dictLookup db k = none) : (dictInsert db k v).length = db.length + 1 := by
  induction db with
  | nil => simp [dictInsert]
  | cons p rest ih =>
      by_cases hp : p.1 = k
      · simp [dictLookup, hp] at h
      · simp [dictLookup, hp] at h
        simp [dictInsert, hp, ih h]

theorem length_dictInsert_of_present {db : List (Nat × StoredItem)} {k : Nat} {v : StoredItem}
    (h : (dictLookup db k).isSome) : (dictInsert db k v).length = db.length := by
  induction db with
  | nil => simp [dictLookup] at h
  | cons p rest ih =>
      by_cases hp : p.1 = k
      · simp [dictInsert, hp]
      · simp [dictLookup, hp] at h
        simp [dictInsert, hp, ih h]

theorem length_dictRemove_of_present {db : List (Nat × StoredItem)} {k : Nat}
    (hnd : (db.map Prod.fst).Nodup) (h : (dictLookup db k).isSome) :
    (dictRemove db k).length + 1 = db.length := by
  induction db with
  | nil => simp [dictLookup] at h
  | cons p rest ih =>
      rw [List.map_cons, List.nodup_cons] at hnd
      by_cases hp : p.1 = k
      · have hk : dictLookup rest k = none :=
          (dictLookup_eq_none_iff rest k).mpr (hp ▸ hnd.1)
        simp [dictRemove, hp, dictRemove_of_absent hk]
      · have h' : (dictLookup rest k).isSome := by simpa [dictLookup, hp] using h
        have hlen := ih hnd.2 h'
        simp [dictRemove, hp]
        omega

theorem nodup_keys_dictInsert {db : List (Nat × StoredItem)} {k : Nat} {v : StoredItem}
    (h : (db.map Prod.fst).Nodup) : ((dictInsert db k v).map Prod.fst).Nodup := by
  induction db with
  | nil => simp [dictInsert]
  | cons p rest ih =>
      rw [List.map_cons, List.nodup_cons] at h
      by_cases hp : p.1 = k
      · rw [show dictInsert (p :: rest) k v = (k, v) :: rest from by simp [dictInsert, hp]]
        rw [List.map_cons, List.nodup_cons]
        exact ⟨hp ▸ h.1, h.2⟩
      · rw [show dictInsert (p :: rest) k v = p :: dictInsert rest k v from by
            simp [dictInsert, hp]]
        rw [List.map_cons, List.nodup_cons]
        refine ⟨?_, ih h.2⟩
        intro hmem
        rcases mem_keys_dictInsert hmem with h2 | h2
        · exact h.1 h2
        · exact hp h2

theorem nodup_keys_dictRemove {db : List (Nat × StoredItem)} {k : Nat}
    (h : (db.map Prod.fst).Nodup) : ((dictRemove db k).map Prod.fst).Nodup :=
  List.Nodup.sublist (List.Sublist.map Prod.fst (dictRemove_sublist db k)) h

theorem mem_keys_dictRemove {db : List (Nat × StoredItem)} {k k' : Nat}
    (h : k' ∈ (dictRemove db k).map Prod.fst) : k' ∈ db.map Prod.fst :=
  (List.Sublist.map Prod.fst (dictRemove_sublist db k)).mem h

/-! ### The store invariant and trace lemmas -/

theorem inv_initialStore : Inv initialStore := by
  constructor
  · simp [initialStore]
  · intro k hk
    simp [initialStore] at hk

theorem inv_stepOp {s : Store} (op : Op) (h : Inv s) : Inv (stepOp s op) := by
  obtain ⟨hnd, hdom⟩ := h
  cases op with
  | get i => exact ⟨hnd, hdom⟩
  | create input =>
      cases hv : validateItem input with
      | none => simpa [stepOp, create_route, hv] using ⟨hnd, hdom⟩
      | some item =>
          constructor
          · simpa [stepOp, create_route, hv, create_item] using nodup_keys_dictInsert hnd
          · intro k hk
            simp only [stepOp, create_route, hv, create_item] at hk ⊢
            rcases mem_keys_dictInsert hk with h1 | h1
            · exact Nat.lt_trans (hdom k h1) (Nat.lt_succ_self _)
            · subst h1
              exact Nat.lt_succ_self _
  | update i u =>
      cases hd : dictLookup s.items_db i with
      | none => simpa [stepOp, update_item, hd] using ⟨hnd, hdom⟩
      | some r =>
          constructor
          · simpa [stepOp, update_item, hd] using nodup_keys_dictInsert hnd
          · intro k hk
            simp only [stepOp, update_item, hd] at hk ⊢
            rcases mem_keys_dictInsert hk with h1 | h1
            · exact hdom k h1
            · subst h1
              exact hdom k (mem_keys_of_dictLookup_isSome (by simp [hd]))
  | delete i =>
      cases hd : dictLookup s.items_db i with
      | none => simpa [stepOp, delete_item, hd] using ⟨hnd, hdom⟩
      | some r =>
          constructor
          · simpa [stepOp, delete_item, hd] using nodup_keys_dictRemove hnd
          · intro k hk
            simp only [stepOp, delete_item, hd] at hk ⊢
            exact hdom k (mem_keys_dictRemove hk)

theorem inv_runOps (ops : List Op) (s : Store) (h : Inv s) : Inv (runOps s ops) := by
  induction ops generalizing s with
  | nil => exact h
  | cons op rest ih => exact ih (stepOp s op) (inv_stepOp op h)

theorem counter_le_stepOp (s : Store) (op : Op) :
    s.item_id_counter ≤ (stepOp s op).item_id_counter := by
  cases op with
  | get i => exact Nat.le_refl _
  | create input =>
      cases hv : validateItem input with
      | none => simp [stepOp, create_route, hv]
      | some item => simp [stepOp, create_route, hv, create_item]
  | update i u =>
      cases hd : dictLookup s.items_db i with
      | none => simp [stepOp, update_item, hd]
      | some r => simp [stepOp, update_item, hd]
  | delete i =>
      cases hd : dictLookup s.items_db i with
      | none => simp [stepOp, delete_item, hd]
      | some r => simp [stepOp, delete_item, hd]

theorem counter_le_runOps (ops : List Op) (s : Store) :
    s.item_id_counter ≤ (runOps s ops).item_id_counter := by
  induction ops generalizing s with
  | nil => exact Nat.le_refl _
  | cons op rest ih =>
      exact Nat.le_trans (counter_le_stepOp s op) (ih (stepOp s op))

theorem runOps_append (s : Store) (a b : List Op) :
    runOps s (a ++ b) = runOps (runOps s a) b := by
  induction a generalizing s with
  | nil => rfl
  | cons op rest ih => simp [runOps, ih]

theorem assignedIds_sorted (ops : List Op) (s : Store) (h : Inv s) :
    (assignedIds s ops).Pairwise (· < ·) ∧
    (∀ a ∈ assignedIds s ops,
      s.item_id_counter ≤ a ∧ a < (runOps s ops).item_id_counter) := by
  induction ops generalizing s with
  | nil => simp [assignedIds]
  | cons op rest ih =>
      have hinv' := inv_stepOp op h
      cases op with
      | get i =>
          have := ih (stepOp s (.get i)) hinv'
          simpa [assignedIds, runOps, stepOp] using this
      | update i u =>
          obtain ⟨hpair, hbound⟩ := ih (stepOp s (.update i u)) hinv'
          refine ⟨by simpa [assignedIds] using hpair, ?_⟩
          intro a ha
          rw [show assignedIds s (.update i u :: rest) =
              assignedIds (stepOp s (.update i u)) rest from rfl] at ha
          obtain ⟨h1, h2⟩ := hbound a ha
          exact ⟨Nat.le_trans (counter_le_stepOp s (.update i u)) h1, h2⟩
      | delete i =>
          obtain ⟨hpair, hbound⟩ := ih (stepOp s (.delete i)) hinv'
          refine ⟨by simpa [assignedIds] using hpair, ?_⟩
          intro a ha
          rw [show assignedIds s (.delete i :: rest) =
              assignedIds (stepOp s (.delete i)) rest from rfl] at ha
          obtain ⟨h1, h2⟩ := hbound a ha
          exact ⟨Nat.le_trans (counter_le_stepOp s (.delete i)) h1, h2⟩
      | create input =>
          obtain ⟨hpair, hbound⟩ := ih (stepOp s (.create input)) hinv'
          cases hv : validateItem input with
          | none =>
              refine ⟨by simpa [assignedIds, hv] using hpair, ?_⟩
              intro a ha
              rw [show assignedIds s (.create input :: rest) =
                  if (validateItem input).isSome then
                    s.item_id_counter :: assignedIds (stepOp s (.create input)) rest
                  else assignedIds (stepOp s (.create input)) rest from rfl, hv] at ha
              simp at ha
              obtain ⟨h1, h2⟩ := hbound a ha
              exact ⟨Nat.le_trans (counter_le_stepOp s (.create input)) h1, h2⟩
          | some item =>
              have hstep : (stepOp s (.create input)).item_id_counter =
                  s.item_id_counter + 1 := by
                simp [stepOp, create_route, hv, create_item]
              have hlist : assignedIds s (.create input :: rest) =
                  s.item_id_counter :: assignedIds (stepOp s (.create input)) rest := by
                rw [show assignedIds s (.create input :: rest) =
                    if (validateItem input).isSome then
                      s.item_id_counter :: assignedIds (stepOp s (.create input)) rest
                    else assignedIds (stepOp s (.create input)) rest from rfl, hv]
                simp
              constructor
              · rw [hlist, List.pairwise_cons]
                refine ⟨?_, hpair⟩
                intro a ha
                have := (hbound a ha).1
                omega
              · intro a ha
                rw [hlist, List.mem_cons] at ha
                have hrun : runOps s (.create input :: rest) =
                    runOps (stepOp s (.create input)) rest := rfl
                rcases ha with ha | ha
                · subst ha
                  refine ⟨Nat.le_refl _, ?_⟩
                  have := counter_le_runOps rest (stepOp s (.create input))
                  rw [hrun]
                  omega
                · obtain ⟨h1, h2⟩ := hbound a ha
                  rw [hrun]
                  exact ⟨by omega, h2⟩

theorem length_runOps_count (ops : List Op) (s : Store) (h : Inv s) :
    (runOps s ops).items_db.length + succDeletes s ops =
      s.items_db.length + succCreates s ops := by
  induction ops generalizing s with
  | nil => simp [runOps, succDeletes, succCreates]
  | cons op rest ih =>
      have hrec := ih (stepOp s op) (inv_stepOp op h)
      cases op with
      | get i =>
          simpa [runOps, succDeletes, succCreates, stepOp] using hrec
      | create input =>
          cases hv : validateItem input with
          | none =>
              have hs : stepOp s (.create input) = s := by
                simp [stepOp, create_route, hv]
              rw [hs] at hrec
              simp only [runOps, succDeletes, succCreates, hv, hs]
              simpa using hrec
          | some item =>
              have hlen : (stepOp s (.create input)).items_db.length =
                  s.items_db.length + 1 := by
                simp only [stepOp, create_route, hv, create_item]
                apply length_dictInsert_of_absent
                apply (dictLookup_eq_none_iff _ _).mpr
                intro hmem
                exact absurd (h.2 _ hmem) (Nat.lt_irrefl _)
              simp only [runOps, succDeletes, succCreates, hv, Option.isSome_some,
                if_true] at hrec ⊢
              omega
      | update i u =>
          cases hd : dictLookup s.items_db i with
          | none =>
              have hs : stepOp s (.update i u) = s := by
                simp [stepOp, update_item, hd]
              rw [hs] at hrec
              simp only [runOps, succDeletes, succCreates, hs]
              simpa using hrec
          | some r =>
              have hlen : (stepOp s (.update i u)).items_db.length =
                  s.items_db.length := by
                simp only [stepOp, update_item, hd]
                exact length_dictInsert_of_present (by simp [hd])
              simp only [runOps, succDeletes, succCreates] at hrec ⊢
              omega
      | delete i =>
          cases hd : dictLookup s.items_db i with
          | none =>
              have hs : stepOp s (.delete i) = s := by
                simp [stepOp, delete_item, hd]
              rw [hs] at hrec
              simp only [runOps, succDeletes, succCreates, hd, hs]
              simpa using hrec
          | some r =>
              have hlen : (stepOp s (.delete i)).items_db.length + 1 =
                  s.items_db.length := by
                simp only [stepOp, delete_item, hd]
                exact length_dictRemove_of_present h.1 (by simp [hd])
              simp only [runOps, succDeletes, succCreates, hd, Option.isSome_some,
                if_true] at hrec ⊢
              omega

theorem applyUpdate_applyUpdate (u : ItemUpdate) (r : StoredItem) :
    applyUpdate u (applyUpdate u r) = applyUpdate u r := by
  simp only [applyUpdate]
  cases u.name <;> cases u.description <;> cases u.price <;> cases u.quantity <;> simp

/-! ### Concrete data used to instantiate the theorems -/

/-- A sample stored record, as built by a successful create. -/
def demoStored : StoredItem := ⟨1, some "Widget", some "A widget", some 1, some 5⟩

/-- A store holding `demoStored` under id 1, counter already at 2. -/
def demoStore : Store := ⟨[(1, demoStored)], 2⟩

/-- A body updating only `price`. -/
def demoUpdate : ItemUpdate := ⟨none, none, some (some 2), none⟩

/-- A valid create body with `description` and `quantity` omitted. -/
def demoInput : CreateInput := ⟨some "Widget", none, some (9.99 : ℚ), none⟩

/-- The `Item` that pydantic validation yields on `demoInput`. -/
def demoItem : Item := ⟨"Widget", none, (9.99 : ℚ), 0⟩

/-- A trace: a successful create, a successful delete of id 1, a second
successful create. -/
def demoOps : List Op :=
  [.create demoInput, .delete 1, .create ⟨some "Gadget", none, some 2, some 3⟩]

/-! ### The claims -/

/-- C1: for every sequence of operations from the initial store, the ids
assigned by successful creates are strictly increasing in order of
assignment, every assigned id is below the final counter, and every key
present in the mapping at any intermediate point (after any prefix of the
trace) is below the final counter — ids are never reused even after
deletion. -/
theorem created_ids_strictly_increasing (ops pre suf : List Op)
    (hsplit : ops = pre ++ suf) :
    (assignedIds initialStore ops).Pairwise (· < ·) ∧
    (∀ a ∈ assignedIds initialStore ops,
      a < (runOps initialStore ops).item_id_counter) ∧
    (∀ k ∈ (runOps initialStore pre).items_db.map Prod.fst,
      k < (runOps initialStore ops).item_id_counter) := by
  obtain ⟨hpair, hbound⟩ := assignedIds_sorted ops initialStore inv_initialStore
  refine ⟨hpair, fun a ha => (hbound a ha).2, ?_⟩
  intro k hk
  have h1 := (inv_runOps pre initialStore inv_initialStore).2 k hk
  have h2 : (runOps initialStore pre).item_id_counter ≤
      (runOps initialStore ops).item_id_counter := by
    rw [hsplit, runOps_append]
    exact counter_le_runOps suf _
  omega

theorem created_ids_strictly_increasing_witness :
    (assignedIds initialStore demoOps).Pairwise (· < ·) ∧
    (∀ a ∈ assignedIds initialStore demoOps,
      a < (runOps initialStore demoOps).item_id_counter) ∧
    (∀ k ∈ (runOps initialStore [Op.create demoInput]).items_db.map Prod.fst,
      k < (runOps initialStore demoOps).item_id_counter) :=
  created_ids_strictly_increasing demoOps [Op.create demoInput]
    [Op.delete 1, Op.create ⟨some "Gadget", none, some 2, some 3⟩] rfl

/-- C2: when id `i` is stored, an update overwrites exactly the fields
present in the body (each present field takes the given value, each
omitted field keeps its stored value, `id` is never altered), an empty
body leaves the record unchanged, and the updated record is both stored
back under `i` (other keys untouched) and returned. -/
theorem update_applies_exactly_given_fields (s : Store) (i : Nat) (u : ItemUpdate)
    (r : StoredItem) (h : dictLookup s.items_db i = some r) :
    (update_item s i u).2 = .ok (applyUpdate u r) ∧
    dictLookup (update_item s i u).1.items_db i = some (applyUpdate u r) ∧
    (∀ j, j ≠ i → dictLookup (update_item s i u).1.items_db j = dictLookup s.items_db j) ∧
    (applyUpdate u r).id = r.id ∧
    (∀ v, u.name = some v → (applyUpdate u r).name = v) ∧
    (∀ v, u.description = some v → (applyUpdate u r).description = v) ∧
    (∀ v, u.price = some v → (applyUpdate u r).price = v) ∧
    (∀ v, u.quantity = some v → (applyUpdate u r).quantity = v) ∧
    (u.name = none → (applyUpdate u r).name = r.name) ∧
    (u.description = none → (applyUpdate u r).description = r.description) ∧
    (u.price = none → (applyUpdate u r).price = r.price) ∧
    (u.quantity = none → (applyUpdate u r).quantity = r.quantity) ∧
    (u = emptyUpdate → applyUpdate u r = r) := by
  refine ⟨?_, ?_, ?_, rfl, ?_, ?_, ?_, ?_, ?_, ?_, ?_, ?_, ?_⟩
  · simp [update_item, h]
  · simp [update_item, h, dictLookup_dictInsert_self]
  · intro j hj
    simp [update_item, h, dictLookup_dictInsert_ne _ _ _ _ hj]
  · intro v hv
    simp [applyUpdate, hv]
  · intro v hv
    simp [applyUpdate, hv]
  · intro v hv
    simp [applyUpdate, hv]
  · intro v hv
    simp [applyUpdate, hv]
  · intro hv
    simp [applyUpdate, hv]
  · intro hv
    simp [applyUpdate, hv]
  · intro hv
    simp [applyUpdate, hv]
  · intro hv
    simp [applyUpdate, hv]
  · intro hu
    subst hu
    rfl

theorem update_applies_exactly_given_fields_witness :
    (update_item demoStore 1 demoUpdate).2 = .ok (applyUpdate demoUpdate demoStored) :=
  (update_applies_exactly_given_fields demoStore 1 demoUpdate demoStored rfl).1

/-- C3 counterexample: a create whose `name` is the empty string succeeds
(returning the created record) instead of failing with ValidationError —
pydantic's `str` type performs no non-emptiness check. -/
theorem create_accepts_empty_name :
    (create_route initialStore ⟨some "", none, some (5 : ℚ), none⟩).2 =
      .ok ⟨1, some "", none, some (5 : ℚ), some 0⟩ ∧
    (create_route initialStore ⟨some "", none, some (5 : ℚ), none⟩).2 ≠
      Except.error ApiError.validationError := by
  constructor
  · rfl
  · intro hc
    rw [show (create_route initialStore ⟨some "", none, some (5 : ℚ), none⟩).2 =
        .ok ⟨1, some "", none, some (5 : ℚ), some 0⟩ from rfl] at hc
    exact Except.noConfusion hc

/-- C3 (amended): create validates that `name` and `price` are present
(string-typed resp. numeric); it fails with ValidationError exactly when
one of them is missing, and any present string `name` — the empty string
included — is accepted and stored as given. -/
theorem create_validates_required_fields (s : Store) (input : CreateInput) :
    ((create_route s input).2 = .error .validationError ↔
      input.name = none ∨ input.price = none) ∧
    (∀ n p, input.name = some n → input.price = some p →
      (create_route s input).2 =
        .ok ⟨s.item_id_counter, some n, input.description, some p,
          some (input.quantity.getD 0)⟩) := by
  constructor
  · obtain ⟨na, de, pr, qu⟩ := input
    cases na <;> cases pr <;> simp [create_route, validateItem, create_item]
  · intro n p hn hp
    simp [create_route, validateItem, hn, hp, create_item]

theorem create_validates_required_fields_witness :
    (create_route initialStore ⟨some "", none, some (7 : ℚ), none⟩).2 =
      .ok ⟨1, some "", none, some (7 : ℚ), some 0⟩ :=
  (create_validates_required_fields initialStore ⟨some "", none, some 7, none⟩).2
    "" 7 rfl rfl

/-- C4 counterexample: on a stored record whose `description` is
`some "A widget"`, an update whose body explicitly sets `description` to
null leaves the stored `description` equal to `none` — the explicit null
IS applied, because `dict(exclude_unset=True)` keeps explicitly-set null
fields. -/
theorem update_explicit_null_description_applied :
    demoStored.description = some "A widget" ∧
    (dictLookup (update_item demoStore 1 ⟨none, some none, none, none⟩).1.items_db 1).map
        StoredItem.description = some none :=
  ⟨rfl, rfl⟩

/-- C4 (amended): for every stored item, an update whose body explicitly
sets `description` to null DOES change the stored `description` to null;
only absence of the field from the body is treated as a no-op. -/
theorem update_explicit_null_clears_description (s : Store) (i : Nat) (u : ItemUpdate)
    (r : StoredItem) (h : dictLookup s.items_db i = some r)
    (hu : u.description = some none) :
    dictLookup (update_item s i u).1.items_db i = some (applyUpdate u r) ∧
    (applyUpdate u r).description = none := by
  constructor
  · simp [update_item, h, dictLookup_dictInsert_self]
  · simp [applyUpdate, hu]

theorem update_explicit_null_clears_description_witness :
    (applyUpdate ⟨none, some none, none, none⟩ demoStored).description = none :=
  (update_explicit_null_clears_description demoStore 1 ⟨none, some none, none, none⟩
    demoStored rfl rfl).2

/-- C5: get, update and delete fail with NotFound exactly when the id is
absent from the mapping, and a failing update or delete leaves the store
unchanged (get never changes it). -/
theorem crud_notFound_iff_absent (s : Store) (i : Nat) (u : ItemUpdate) :
    (get_item s i = .error .notFound ↔ dictLookup s.items_db i = none) ∧
    ((update_item s i u).2 = .error .notFound ↔ dictLookup s.items_db i = none) ∧
    ((delete_item s i).2 = .error .notFound ↔ dictLookup s.items_db i = none) ∧
    (dictLookup s.items_db i = none →
      (update_item s i u).1 = s ∧ (delete_item s i).1 = s) := by
  cases hd : dictLookup s.items_db i with
  | none => simp [get_item, update_item, delete_item, hd]
  | some r => simp [get_item, update_item, delete_item, hd]

theorem crud_notFound_iff_absent_witness :
    (update_item initialStore 1 emptyUpdate).1 = initialStore ∧
    (delete_item initialStore 1).1 = initialStore :=
  (crud_notFound_iff_absent initialStore 1 emptyUpdate).2.2.2 rfl

/-- C6: deleting a present id returns the stored record, removes exactly
that entry (the id no longer resolves, all other keys resolve as before),
and a subsequent get of that id fails with NotFound. -/
theorem delete_removes_exactly_target (s : Store) (i : Nat) (r : StoredItem)
    (h : dictLookup s.items_db i = some r) :
    (delete_item s i).2 = .ok r ∧
    dictLookup (delete_item s i).1.items_db i = none ∧
    (∀ j, j ≠ i → dictLookup (delete_item s i).1.items_db j = dictLookup s.items_db j) ∧
    get_item (delete_item s i).1 i = .error .notFound := by
  refine ⟨?_, ?_, ?_, ?_⟩
  · simp [delete_item, h]
  · simp [delete_item, h, dictLookup_dictRemove_self]
  · intro j hj
    simp [delete_item, h, dictLookup_dictRemove_ne _ _ _ hj]
  · simp [get_item, delete_item, h, dictLookup_dictRemove_self]

theorem delete_removes_exactly_target_witness :
    get_item (delete_item demoStore 1).1 1 = .error .notFound :=
  (delete_removes_exactly_target demoStore 1 demoStored rfl).2.2.2

/-- C7: for every input that passes validation, the create returns the
new record, and a get with the id this create assigned returns a record
equal to the one create returned. -/
theorem get_after_create_returns_created (s : Store) (input : CreateInput) (item : Item)
    (h : validateItem input = some item) :
    (create_route s input).2 = .ok (create_item s item).2 ∧
    get_item (create_route s input).1 (create_item s item).2.id =
      .ok (create_item s item).2 := by
  constructor
  · simp [create_route, h]
  · simp [create_route, h, get_item, create_item, dictLookup_dictInsert_self]

theorem get_after_create_returns_created_witness :
    get_item (create_route initialStore demoInput).1
        (create_item initialStore demoItem).2.id =
      .ok (create_item initialStore demoItem).2 :=
  (get_after_create_returns_created initialStore demoInput demoItem rfl).2

/-- C8: in every state reachable by a trace from the initial store, the
list operation returns exactly the items of the mapping together with
their count, and that count equals the number of successful creates minus
the number of successful deletes of the trace. -/
theorem list_returns_all_items_and_count (ops : List Op) :
    get_all_items (runOps initialStore ops) =
      ((runOps initialStore ops).items_db.map Prod.snd,
        (runOps initialStore ops).items_db.length) ∧
    (runOps initialStore ops).items_db.length + succDeletes initialStore ops =
      succCreates initialStore ops := by
  refine ⟨rfl, ?_⟩
  have := length_runOps_count ops initialStore inv_initialStore
  simpa [initialStore] using this

/-- C9: on the empty store, creating `{name: "Widget", price: 9.99}` with
`description` and `quantity` omitted yields id 1 and the record
`{id: 1, name: "Widget", description: null, price: 9.99, quantity: 0}` —
`description` defaults to null and `quantity` to 0. -/
theorem first_create_scenario :
    create_route initialStore ⟨some "Widget", none, some (9.99 : ℚ), none⟩ =
      (⟨[(1, ⟨1, some "Widget", none, some (9.99 : ℚ), some 0⟩)], 2⟩,
        .ok ⟨1, some "Widget", none, some (9.99 : ℚ), some 0⟩) :=
  rfl

/-- C10: updating a present id with the same body twice in succession
leaves the store (and the returned record) equal to updating once. -/
theorem update_idempotent (s : Store) (i : Nat) (u : ItemUpdate)
    (h : (dictLookup s.items_db i).isSome) :
    (update_item (update_item s i u).1 i u).1 = (update_item s i u).1 ∧
    (update_item (update_item s i u).1 i u).2 = (update_item s i u).2 := by
  obtain ⟨r, hd⟩ := Option.isSome_iff_exists.mp h
  have h1 : (update_item s i u).1 =
      ⟨dictInsert s.items_db i (applyUpdate u r), s.item_id_counter⟩ := by
    simp [update_item, hd]
  have h2 : dictLookup (dictInsert s.items_db i (applyUpdate u r)) i =
      some (applyUpdate u r) := dictLookup_dictInsert_self _ _ _
  constructor
  · rw [h1]
    simp [update_item, h2, applyUpdate_applyUpdate, dictInsert_dictInsert_same]
  · rw [h1]
    simp [update_item, h2, applyUpdate_applyUpdate, hd]

theorem update_idempotent_witness :
    (update_item (update_item demoStore 1 demoUpdate).1 1 demoUpdate).1 =
      (update_item demoStore 1 demoUpdate).1 :=
  (update_idempotent demoStore 1 demoUpdate rfl).1

end FastApiDemo
